import Mathlib

/-!
Verification of the SQL migration fixer (`fix_migrations.py`).

The program is embedded shallowly: Python strings become `List Char`,
each regex used by the program is translated into an explicit scanning
function with Python `re` leftmost-match semantics, and the three fix
functions plus the driver become pure Lean functions.  All definitions
are executable (structural recursion only), so concrete runs can be
settled by `decide`.
-/

set_option maxRecDepth 100000

/-! ### Definitions -/

/-- Character class of Python `\w` (ASCII range): letters, digits, underscore. -/
def isWordChar (c : Char) : Bool := c.isAlphanum || c = '_'

/-- Character class of Python `\s` (ASCII range): the whitespace characters. -/
def isSpaceChar (c : Char) : Bool :=
  c = ' ' || c = '\t' || c = '\n' || c = '\r' || c = '\x0b' || c = '\x0c'

/-- Character class of Python `[\w.]`: word characters and the dot. -/
def isTableChar (c : Char) : Bool := isWordChar c || c = '.'

/-- Not a double quote (the class `[^"]` of the policy-name pattern). -/
def notQuote (c : Char) : Bool := c != '"'

/-- Python's substring test `needle in hay`. -/
def containsSub (needle : List Char) : List Char → Bool
  | [] => needle.isEmpty
  | c :: cs => needle.isPrefixOf (c :: cs) || containsSub needle cs

/-- The literal `CREATE INDEX ` that starts the index-fixer pattern. -/
def createIndexPat : List Char := "CREATE INDEX ".data

/-- The literal of the negative lookahead `(?!IF NOT EXISTS)`. -/
def ifNotExistsPat : List Char := "IF NOT EXISTS".data

/-- The replacement prefix `CREATE INDEX IF NOT EXISTS `. -/
def createIndexRepl : List Char := "CREATE INDEX IF NOT EXISTS ".data

/-- Does the pattern `CREATE INDEX (?!IF NOT EXISTS)(\w+)` match at the head of `s`?
Mirrors one match attempt of `re.sub` in `fix_create_index`. -/
def matchAt (s : List Char) : Bool :=
  createIndexPat.isPrefixOf s
  && !(ifNotExistsPat.isPrefixOf (s.drop createIndexPat.length))
  && !((s.drop createIndexPat.length).takeWhile isWordChar).isEmpty

/-- Scanner for `re.sub(r'CREATE INDEX (?!IF NOT EXISTS)(\w+)', ...)`:
walk left to right; at a match emit the replacement and skip the match,
otherwise emit one character.  The `Nat` argument counts characters of a
previous match that remain to be skipped, making the recursion structural. -/
def fixIndexAux : List Char → Nat → List Char
  | [], _ => []
  | _ :: cs, Nat.succ k => fixIndexAux cs k
  | c :: cs, 0 =>
    if matchAt (c :: cs) then
      let ident := ((c :: cs).drop createIndexPat.length).takeWhile isWordChar
      createIndexRepl ++ ident ++ fixIndexAux cs (createIndexPat.length - 1 + ident.length)
    else
      c :: fixIndexAux cs 0

/-- `fix_create_index` from the source: add `IF NOT EXISTS` to `CREATE INDEX`
statements by regex substitution over the whole content. -/
def fix_create_index (content : List Char) : List Char :=
  fixIndexAux content 0

/-- No match of the index pattern starts among the first `n` positions of `s`. -/
def noMatchBefore (s : List Char) (n : Nat) : Prop :=
  ∀ i, i < n → matchAt (s.drop i) = false

/-- Every occurrence of `CREATE INDEX ` in `s` is immediately followed by
`IF NOT EXISTS` (the content is fully guarded). -/
def guardedB : List Char → Bool
  | [] => true
  | c :: cs =>
    (!(createIndexPat.isPrefixOf (c :: cs))
      || ifNotExistsPat.isPrefixOf ((c :: cs).drop createIndexPat.length))
    && guardedB cs

/-- Python `content.split('\n')`. -/
def splitLines : List Char → List (List Char)
  | [] => [[]]
  | c :: cs =>
    if c = '\n' then [] :: splitLines cs
    else
      match splitLines cs with
      | [] => [[c]]
      | l :: ls => (c :: l) :: ls

/-- Python `'\n'.join(lines)`. -/
def joinLines : List (List Char) → List Char
  | [] => []
  | [l] => l
  | l :: ls => l ++ '\n' :: joinLines ls

/-- The match `re.match(r'^\s*CREATE POLICY\s+"([^"]+)"', line)`, returning the
captured policy name.  Leading whitespace, the literal keywords, at least one
whitespace character, then a non-empty quoted name with a closing quote. -/
def policyName (line : List Char) : Option (List Char) :=
  let s := line.dropWhile isSpaceChar
  if ( "CREATE POLICY".data).isPrefixOf s then
    match s.drop 13 with
    | [] => none
    | c :: r =>
      if isSpaceChar c then
        match (c :: r).dropWhile isSpaceChar with
        | '"' :: rest =>
          let name := rest.takeWhile notQuote
          if name.isEmpty then none
          else if (rest.dropWhile notQuote).isEmpty then none
          else some name
        | _ => none
      else none
  else none

/-- The search `re.search(r'ON\s+([\w.]+)', line)`: leftmost occurrence of `ON`
followed by at least one whitespace character and a non-empty run of
word/dot characters; returns that run (the table name). -/
def findOnTable : List Char → Option (List Char)
  | [] => none
  | c :: cs =>
    if c = 'O' then
      match cs with
      | 'N' :: rest =>
        if (rest.takeWhile isSpaceChar).isEmpty then findOnTable cs
        else
          let tbl := (rest.dropWhile isSpaceChar).takeWhile isTableChar
          if tbl.isEmpty then findOnTable cs else some tbl
      | _ => findOnTable cs
    else findOnTable cs

/-- The lookahead loop `for j in range(i, min(i + 5, len(lines)))`: first
`ON <table>` found in the window (the current line and the next four). -/
def windowTable (window : List (List Char)) : Option (List Char) :=
  window.findSome? findOnTable

/-- The f-string `f'DROP POLICY IF EXISTS "{policy_name}"'` used for the
duplicate check. -/
def policyDropHead (name : List Char) : List Char :=
  "DROP POLICY IF EXISTS \"".data ++ name ++ "\"".data

/-- The inserted guard `f'DROP POLICY IF EXISTS "{policy_name}" ON {table_name};'`. -/
def policyGuard (name table : List Char) : List Char :=
  "DROP POLICY IF EXISTS \"".data ++ name ++ "\" ON ".data ++ table ++ ";".data

/-- The `has_drop` check of `fix_create_policy`: at the first line there is no
previous line; otherwise test whether the previous line contains the
`DROP POLICY IF EXISTS "<name>"` text as a substring. -/
def hasDropPolicy (prev : Option (List Char)) (name : List Char) : Bool :=
  match prev with
  | none => false
  | some pl => containsSub (policyDropHead name) pl

/-- One iteration of the `while` loop of `fix_create_policy`: the lines the
loop appends to `fixed_lines` for the current line. -/
def policyEmit (prev : Option (List Char)) (line : List Char)
    (window : List (List Char)) : List (List Char) :=
  match policyName line with
  | none => [line]
  | some name =>
    match windowTable window with
    | none => [line]
    | some tbl =>
      if hasDropPolicy prev name then [line]
      else [policyGuard name tbl, line]

/-- The `while` loop of `fix_create_policy` over the remaining lines; `prev` is
the original line preceding the current one (`lines[i-1]`, `none` at `i = 0`). -/
def policyStep (prev : Option (List Char)) : List (List Char) → List (List Char)
  | [] => []
  | line :: rest => policyEmit prev line ((line :: rest).take 5) ++ policyStep (some line) rest

/-- `fix_create_policy` from the source: split into lines, insert
`DROP POLICY IF EXISTS` guards, and join the lines again. -/
def fix_create_policy (content : List Char) : List Char :=
  joinLines (policyStep none (splitLines content))

/-- The output chunks produced for a prefix `pre` of the line list when the
lines `suffix` follow it (lookahead windows cross into `suffix`). -/
def policyPre (prev : Option (List Char)) :
    List (List Char) → List (List Char) → List (List Char)
  | [], _ => []
  | q :: qs, suffix =>
    policyEmit prev q ((q :: (qs ++ suffix)).take 5) ++ policyPre (some q) qs suffix

/-- The original line just before the current one, given the lines `pre` before
it and the line `prev` preceding the whole slice. -/
def prevFor (prev : Option (List Char)) (pre : List (List Char)) : Option (List Char) :=
  match pre.getLast? with
  | some l => some l
  | none => prev

/-- The match `re.match(r'^\s*CREATE TRIGGER\s+(\w+)', line)`, returning the
captured trigger name. -/
def triggerName (line : List Char) : Option (List Char) :=
  let s := line.dropWhile isSpaceChar
  if ( "CREATE TRIGGER".data).isPrefixOf s then
    match s.drop 14 with
    | [] => none
    | c :: r =>
      if isSpaceChar c then
        let name := ((c :: r).dropWhile isSpaceChar).takeWhile isWordChar
        if name.isEmpty then none else some name
      else none
  else none

/-- The f-string `f'DROP TRIGGER IF EXISTS {trigger_name}'` used for the
duplicate check. -/
def triggerDropHead (name : List Char) : List Char :=
  "DROP TRIGGER IF EXISTS ".data ++ name

/-- The inserted guard `f'DROP TRIGGER IF EXISTS {trigger_name} ON {table_name};'`. -/
def triggerGuard (name table : List Char) : List Char :=
  "DROP TRIGGER IF EXISTS ".data ++ name ++ " ON ".data ++ table ++ ";".data

/-- The `has_drop` check of `fix_create_trigger`. -/
def hasDropTrigger (prev : Option (List Char)) (name : List Char) : Bool :=
  match prev with
  | none => false
  | some pl => containsSub (triggerDropHead name) pl

/-- One iteration of the `while` loop of `fix_create_trigger`. -/
def triggerEmit (prev : Option (List Char)) (line : List Char)
    (window : List (List Char)) : List (List Char) :=
  match triggerName line with
  | none => [line]
  | some name =>
    match windowTable window with
    | none => [line]
    | some tbl =>
      if hasDropTrigger prev name then [line]
      else [triggerGuard name tbl, line]

/-- The `while` loop of `fix_create_trigger` over the remaining lines. -/
def triggerStep (prev : Option (List Char)) : List (List Char) → List (List Char)
  | [] => []
  | line :: rest => triggerEmit prev line ((line :: rest).take 5) ++ triggerStep (some line) rest

/-- `fix_create_trigger` from the source. -/
def fix_create_trigger (content : List Char) : List Char :=
  joinLines (triggerStep none (splitLines content))

/-- Every line of the list that matches `CREATE POLICY "<name>"` finds a table
in its five-line lookahead window. -/
def allFoundB : List (List Char) → Bool
  | [] => true
  | q :: b =>
    (match policyName q with
     | none => true
     | some _ => !(windowTable ((q :: b).take 5)).isNone)
    && allFoundB b

/-- Every line of the list that matches `CREATE POLICY "<name>"` and finds a
table in its window is preceded by a line containing its `DROP POLICY` text,
so the policy fixer inserts nothing. -/
def policyGuardedB (prev : Option (List Char)) : List (List Char) → Bool
  | [] => true
  | q :: b =>
    (match policyName q with
     | none => true
     | some p => (windowTable ((q :: b).take 5)).isNone || hasDropPolicy prev p)
    && policyGuardedB (some q) b

/-- Parameters of the generic guard-inserting line scan, modelled from the
spec: §4.3 calls the trigger fixer an "identical algorithm" to the policy
fixer of §4.2, the two being instances of one generic procedure that differ
only in the matched pattern (`nameOf`) and the guard text (`keyword` and the
way the extracted name is rendered into it, `render`). -/
structure GuardParams where
  nameOf : List Char → Option (List Char)
  keyword : List Char
  render : List Char → List Char

/-- Generic duplicate-check text `DROP <KW> IF EXISTS <rendered name>`. -/
def GuardParams.dropHead (P : GuardParams) (name : List Char) : List Char :=
  "DROP ".data ++ P.keyword ++ " IF EXISTS ".data ++ P.render name

/-- Generic guard line `DROP <KW> IF EXISTS <rendered name> ON <table>;`. -/
def GuardParams.guard (P : GuardParams) (name table : List Char) : List Char :=
  P.dropHead name ++ " ON ".data ++ table ++ ";".data

/-- One iteration of the generic line scan (modelled from the spec, §4.2):
match the line, search the five-line window for `ON <table>`, check the
preceding line for an existing guard, and otherwise insert one. -/
def genericEmit (P : GuardParams) (prev : Option (List Char)) (line : List Char)
    (window : List (List Char)) : List (List Char) :=
  match P.nameOf line with
  | none => [line]
  | some name =>
    match windowTable window with
    | none => [line]
    | some tbl =>
      match prev with
      | none => [P.guard name tbl, line]
      | some pl =>
        if containsSub (P.dropHead name) pl then [line]
        else [P.guard name tbl, line]

/-- The generic line scan (modelled from the spec, §4.2/§4.3). -/
def genericStep (P : GuardParams) (prev : Option (List Char)) :
    List (List Char) → List (List Char)
  | [] => []
  | line :: rest =>
    genericEmit P prev line ((line :: rest).take 5) ++ genericStep P (some line) rest

/-- The policy instance of the generic scan: policy pattern, keyword `POLICY`,
name rendered inside double quotes. -/
def policyParams : GuardParams :=
  ⟨policyName, "POLICY".data, fun n => '"' :: (n ++ [ '"' ])⟩

/-- The trigger instance of the generic scan: trigger pattern, keyword
`TRIGGER`, name rendered bare. -/
def triggerParams : GuardParams :=
  ⟨triggerName, "TRIGGER".data, fun n => n⟩

/-- The fix pipeline of `fix_migration_file`: index, then policy, then trigger,
each consuming the previous output. -/
def applyAllFixes (content : List Char) : List Char :=
  fix_create_trigger (fix_create_policy (fix_create_index content))

/-- `fix_migration_file` on the content read from the file: the new content
and whether the file was written back (`True` printed as "Fixed"). -/
def fix_migration_file (content : List Char) : List Char × Bool :=
  let fixed := applyAllFixes content
  if fixed = content then (content, false) else (fixed, true)

/-- The migrations directory as a map from file names to contents. -/
abbrev FileSystem := List (List Char × List Char)

/-- Reading a file (`filepath.exists()` / `open(filepath).read()`). -/
def lookupFile : FileSystem → List Char → Option (List Char)
  | [], _ => none
  | (n, c) :: fs, m => if n = m then some c else lookupFile fs m

/-- Writing a file in place. -/
def writeFile : FileSystem → List Char → List Char → FileSystem
  | [], n, c => [(n, c)]
  | (n', c') :: fs, n, c =>
    if n' = n then (n, c) :: fs else (n', c') :: writeFile fs n c

/-- The hardcoded `migrations_to_fix` list of `main`. -/
def migrationsToFix : List (List Char) :=
  [ "00003_brand_brain_schema.sql".data,
    "00004_rate_limiting.sql".data,
    "00006_post_generator_schema.sql".data,
    "00007_engagement_agent.sql".data,
    "00008_engagement_agent_schema.sql".data,
    "00009_payment_subscription_schema.sql".data,
    "00010_social_scheduler_schema.sql".data,
    "00011_free_tier_initialization.sql".data ]

/-- The loop of `main`: for each listed name, skip it if the file is absent,
otherwise run `fix_migration_file`, writing back only on change; returns the
final file system, the list of files written, and `fixed_count`. -/
def runMain (fs : FileSystem) : List (List Char) → FileSystem × List (List Char) × Nat
  | [] => (fs, [], 0)
  | n :: rest =>
    match lookupFile fs n with
    | none => runMain fs rest
    | some content =>
      let r := fix_migration_file content
      let fs' := if r.2 then writeFile fs n r.1 else fs
      let rec' := runMain fs' rest
      (rec'.1, (if r.2 then n :: rec'.2.1 else rec'.2.1), (if r.2 then 1 else 0) + rec'.2.2)

/-- The spec's example line for the index fixer. -/
def exIndexLine : List Char := "CREATE INDEX idx_users_email ON users(email);".data

/-- Overlapping `CREATE INDEX` occurrences: the substitution consumes the
second occurrence as the identifier of the first. -/
def exIndexOverlap : List Char := "CREATE INDEX CREATE INDEX a".data

/-- A migration whose `CREATE POLICY` line is preceded by a `DROP POLICY`
guard that names a different table. -/
def exPolicyWrongTable : List Char :=
  "DROP POLICY IF EXISTS \"p\" ON wrong;\nCREATE POLICY \"p\" ON tbl1 USING (true);".data

/-- A migration whose guard line names the right policy but another table. -/
def exPolicyOtherTable : List Char :=
  "DROP POLICY IF EXISTS \"q\" ON other;\nCREATE POLICY \"q\" ON real_table FOR ALL;".data

/-- A `CREATE POLICY` with no `ON` in its five-line window whose window, after
a guard for a later policy is inserted, comes to contain that guard's `ON`. -/
def exPolicyLateOn : List Char :=
  "CREATE POLICY \"a\"\n.\n.\n.\nCREATE POLICY \"b\"\nON t".data

/-- The spec's example policy statement. -/
def exPolicyGood : List Char :=
  "CREATE POLICY \"read_own\" ON profiles\nFOR SELECT USING (uid);".data

/-- A single well-formed `CREATE POLICY` line. -/
def exC1line : List Char := "CREATE POLICY \"x\" ON tb FOR ALL;".data

/-- A `CREATE POLICY` line used together with its exact guard line. -/
def exC2line : List Char := "CREATE POLICY \"w\" ON t1 FOR SELECT;".data

/-- A `CREATE POLICY` line with no `ON` clause anywhere near. -/
def exC5line : List Char := "CREATE POLICY \"z\"".data

/-- A continuation line with no `ON` clause. -/
def exC5next : List Char := "FOR SELECT;".data

/-- A one-file migration directory for exercising the driver. -/
def exFS : FileSystem := [( "00003_brand_brain_schema.sql".data, exIndexLine)]

/-! ### Helper lemmas: the index fixer -/

theorem fixIndexAux_skip : ∀ (l : List Char) (k : Nat), fixIndexAux l k = fixIndexAux (l.drop k) 0
  | [], 0 => rfl
  | [], Nat.succ _ => by simp [fixIndexAux]
  | _ :: _, 0 => rfl
  | _ :: cs, Nat.succ k => by
    simpa [fixIndexAux] using fixIndexAux_skip cs k

theorem matchAt_nil : matchAt [] = false := by decide

theorem fix_nomatch {c : Char} {cs : List Char} (h : matchAt (c :: cs) = false) :
    fix_create_index (c :: cs) = c :: fix_create_index cs := by
  simp [fix_create_index, fixIndexAux, h]

theorem length_le_of_isPrefixOf : ∀ {p s : List Char}, p.isPrefixOf s = true → p.length ≤ s.length
  | [], _, _ => Nat.zero_le _
  | _ :: _, [], h => by simp [List.isPrefixOf] at h
  | _ :: p, _ :: s, h => by
    simp only [List.isPrefixOf, Bool.and_eq_true] at h
    exact Nat.succ_le_succ (length_le_of_isPrefixOf h.2)

theorem isPrefixOf_append_self : ∀ (p t : List Char), p.isPrefixOf (p ++ t) = true
  | [], _ => by simp [List.isPrefixOf]
  | c :: p, t => by simp [List.isPrefixOf, isPrefixOf_append_self p t]

theorem eq_append_drop_of_isPrefixOf : ∀ {p s : List Char}, p.isPrefixOf s = true →
    s = p ++ s.drop p.length
  | [], _, _ => rfl
  | _ :: _, [], h => by simp [List.isPrefixOf] at h
  | a :: p, b :: s, h => by
    simp only [List.isPrefixOf, Bool.and_eq_true, beq_iff_eq] at h
    simpa [h.1] using congrArg (List.cons b) (eq_append_drop_of_isPrefixOf h.2)

theorem drop_length_takeWhile (p : Char → Bool) : ∀ (l : List Char),
    l.drop (l.takeWhile p).length = l.dropWhile p
  | [] => rfl
  | c :: cs => by
    cases hc : p c
    · simp [List.takeWhile_cons, List.dropWhile_cons, hc]
    · simp [List.takeWhile_cons, List.dropWhile_cons, hc, drop_length_takeWhile p cs]

theorem fix_match {s : List Char} (h : matchAt s = true) :
    fix_create_index s =
      createIndexRepl ++ (s.drop createIndexPat.length).takeWhile isWordChar
        ++ fix_create_index ((s.drop createIndexPat.length).dropWhile isWordChar) := by
  match s with
  | [] => exact absurd h (by decide)
  | c :: cs =>
    have h13 : createIndexPat.length = 13 := by decide
    have harg : cs.drop (createIndexPat.length - 1 + (((c :: cs).drop createIndexPat.length).takeWhile isWordChar).length)
        = ((c :: cs).drop createIndexPat.length).dropWhile isWordChar := by
      rw [h13]
      show cs.drop (12 + ((cs.drop 12).takeWhile isWordChar).length) = (cs.drop 12).dropWhile isWordChar
      rw [← List.drop_drop, drop_length_takeWhile]
    simp only [fix_create_index, fixIndexAux, h, if_true]
    rw [fixIndexAux_skip, harg]

theorem fix_append_of_noMatch : ∀ (t u : List Char),
    noMatchBefore (t ++ u) t.length → fix_create_index (t ++ u) = t ++ fix_create_index u
  | [], _, _ => rfl
  | c :: t, u, h => by
    have h0 : matchAt (c :: (t ++ u)) = false := h 0 (Nat.succ_pos _)
    have ih : fix_create_index (t ++ u) = t ++ fix_create_index u := by
      apply fix_append_of_noMatch t u
      intro i hi
      have := h (i + 1) (Nat.succ_lt_succ hi)
      simpa using this
    show fix_create_index (c :: (t ++ u)) = (c :: t) ++ fix_create_index u
    rw [fix_nomatch h0, ih]
    rfl

theorem fix_of_guarded : ∀ {s : List Char}, guardedB s = true → fix_create_index s = s
  | [], _ => rfl
  | c :: cs, h => by
    simp only [guardedB, Bool.and_eq_true, Bool.or_eq_true, Bool.not_eq_true'] at h
    have hm : matchAt (c :: cs) = false := by
      rcases h.1 with h1 | h1 <;> simp [matchAt, h1]
    rw [fix_nomatch hm, fix_of_guarded h.2]

theorem takeWhile_append_of_all {p : Char → Bool} :
    ∀ {w : List Char}, (∀ x ∈ w, p x = true) → ∀ (u : List Char),
      (w ++ u).takeWhile p = w ++ u.takeWhile p
  | [], _, _ => rfl
  | c :: w, h, u => by
    have hc : p c = true := h c (List.mem_cons_self c w)
    simp only [List.cons_append, List.takeWhile_cons, hc, if_true]
    exact congrArg (List.cons c) (takeWhile_append_of_all (fun x hx => h x (List.mem_cons_of_mem c hx)) u)

theorem dropWhile_append_of_all {p : Char → Bool} :
    ∀ {w : List Char}, (∀ x ∈ w, p x = true) → ∀ (u : List Char),
      (w ++ u).dropWhile p = u.dropWhile p
  | [], _, _ => rfl
  | c :: w, h, u => by
    have hc : p c = true := h c (List.mem_cons_self c w)
    simp only [List.cons_append, List.dropWhile_cons, hc, if_true]
    exact dropWhile_append_of_all (fun x hx => h x (List.mem_cons_of_mem c hx)) u

theorem dropWhile_eq_self_of_takeWhile_nil {p : Char → Bool} {u : List Char}
    (h : u.takeWhile p = []) : u.dropWhile p = u := by
  cases u with
  | nil => rfl
  | cons c cs =>
    simp only [List.takeWhile_cons] at h
    by_cases hc : p c = true
    · simp [hc] at h
    · simp only [Bool.not_eq_true] at hc
      simp [List.dropWhile_cons, hc]

/-! ### Helper lemmas: lines, splitting and joining -/

theorem splitLines_ne_nil : ∀ (c : List Char), splitLines c ≠ []
  | [] => by simp [splitLines]
  | c :: cs => by
    simp only [splitLines]
    by_cases h : c = '\n'
    · simp [h]
    · simp only [h, if_false]
      cases splitLines cs <;> simp

theorem noNewline_splitLines : ∀ (c : List Char), ∀ l ∈ splitLines c, '\n' ∉ l
  | [] => by
    intro l hl
    simp [splitLines] at hl
    simp [hl]
  | c :: cs => by
    intro l hl
    by_cases h : c = '\n'
    · simp only [splitLines, h, if_true] at hl
      rcases List.mem_cons.mp hl with h1 | h1
      · simp [h1]
      · exact noNewline_splitLines cs l h1
    · simp only [splitLines, h, if_false] at hl
      cases hsp : splitLines cs with
      | nil => exact absurd hsp (splitLines_ne_nil cs)
      | cons l0 ls =>
        rw [hsp] at hl
        rcases List.mem_cons.mp hl with h1 | h1
        · subst h1
          intro hmem
          rcases List.mem_cons.mp hmem with h2 | h2
          · exact h h2.symm
          · exact noNewline_splitLines cs l0 (by rw [hsp]; exact List.mem_cons_self _ _) h2
        · exact noNewline_splitLines cs l (by rw [hsp]; exact List.mem_cons_of_mem _ h1)

theorem splitLines_append_cons : ∀ (l : List Char), '\n' ∉ l →
    ∀ (cs : List Char) (h0 : List Char) (t : List (List Char)), splitLines cs = h0 :: t →
      splitLines (l ++ cs) = (l ++ h0) :: t
  | [], _, cs, h0, t, hcs => by simpa using hcs
  | c :: l', hn, cs, h0, t, hcs => by
    have hc : ¬ c = '\n' := fun hc => hn (hc ▸ List.mem_cons_self c l')
    have ih := splitLines_append_cons l' (fun hm => hn (List.mem_cons_of_mem c hm)) cs h0 t hcs
    show splitLines (c :: (l' ++ cs)) = ((c :: l') ++ h0) :: t
    simp only [splitLines, hc, if_false, ih, List.cons_append]

theorem splitLines_joinLines : ∀ (ls : List (List Char)), ls ≠ [] →
    (∀ l ∈ ls, '\n' ∉ l) → splitLines (joinLines ls) = ls
  | [], h, _ => absurd rfl h
  | [l], _, hn => by
    have h := splitLines_append_cons l (hn l (List.mem_cons_self l [])) [] [] [] rfl
    simpa [joinLines] using h
  | l :: l' :: ls, _, hn => by
    have ih := splitLines_joinLines (l' :: ls) (by simp)
      (fun x hx => hn x (List.mem_cons_of_mem l hx))
    have hsplit : splitLines ('\n' :: joinLines (l' :: ls)) = [] :: l' :: ls := by
      simp only [splitLines, if_true, ih]
    have h := splitLines_append_cons l (hn l (List.mem_cons_self l _))
      ('\n' :: joinLines (l' :: ls)) [] (l' :: ls) hsplit
    simpa [joinLines] using h

/-! ### Helper lemmas: the policy fixer -/

theorem policyEmit_getLast? (prev : Option (List Char)) (line : List Char)
    (window : List (List Char)) : (policyEmit prev line window).getLast? = some line := by
  unfold policyEmit
  cases hn : policyName line with
  | none => rfl
  | some name =>
    cases ht : windowTable window with
    | none => rfl
    | some tbl =>
      by_cases hd : hasDropPolicy prev name = true <;> simp [hd]

theorem policyEmit_ne_nil (prev : Option (List Char)) (line : List Char)
    (window : List (List Char)) : policyEmit prev line window ≠ [] := by
  intro h
  have hg := policyEmit_getLast? prev line window
  rw [h] at hg
  simp at hg

theorem policyEmit_cases (prev : Option (List Char)) (line : List Char)
    (window : List (List Char)) :
    policyEmit prev line window = [line]
      ∨ ∃ p t, policyName line = some p ∧ windowTable window = some t
          ∧ hasDropPolicy prev p = false
          ∧ policyEmit prev line window = [policyGuard p t, line] := by
  unfold policyEmit
  cases hn : policyName line with
  | none => exact Or.inl rfl
  | some name =>
    cases ht : windowTable window with
    | none => exact Or.inl rfl
    | some tbl =>
      by_cases hd : hasDropPolicy prev name = true
      · simp [hd]
      · simp only [Bool.not_eq_true] at hd
        simp only [hd, if_false]
        exact Or.inr ⟨name, tbl, rfl, rfl, hd, rfl⟩

theorem policyEmit_insert {line p t : List Char} (prev : Option (List Char))
    (window : List (List Char)) (hn : policyName line = some p)
    (ht : windowTable window = some t) (hd : hasDropPolicy prev p = false) :
    policyEmit prev line window = [policyGuard p t, line] := by
  simp [policyEmit, hn, ht, hd]

theorem policyEmit_skip {line p : List Char} (prev : Option (List Char))
    (window : List (List Char)) (hn : policyName line = some p)
    (hd : hasDropPolicy prev p = true) :
    policyEmit prev line window = [line] := by
  unfold policyEmit
  rw [hn]
  cases windowTable window <;> simp [hd]

theorem policyEmit_noTable {line : List Char} (prev : Option (List Char))
    (window : List (List Char)) (ht : windowTable window = none) :
    policyEmit prev line window = [line] := by
  unfold policyEmit
  cases policyName line <;> simp [ht]

theorem prevFor_cons (prev : Option (List Char)) (q : List Char) (qs : List (List Char)) :
    prevFor prev (q :: qs) = prevFor (some q) qs := by
  cases qs with
  | nil => rfl
  | cons q' qs' =>
    show prevFor prev (q :: q' :: qs') = prevFor (some q) (q' :: qs')
    unfold prevFor
    rw [List.getLast?_cons_cons]
    cases h : (q' :: qs').getLast? with
    | none => exact absurd (List.getLast?_eq_none_iff.mp h) (by simp)
    | some l => rfl

theorem policyStep_append (line : List Char) (rest : List (List Char)) :
    ∀ (pre : List (List Char)) (prev : Option (List Char)),
    policyStep prev (pre ++ line :: rest)
      = policyPre prev pre (line :: rest)
        ++ (policyEmit (prevFor prev pre) line ((line :: rest).take 5)
            ++ policyStep (some line) rest)
  | [], prev => by simp [policyStep, policyPre, prevFor]
  | q :: qs, prev => by
    have ih := policyStep_append line rest qs (some q)
    show policyStep prev (q :: (qs ++ line :: rest)) = _
    rw [policyStep, ih]
    simp [policyPre, prevFor_cons, List.append_assoc]

theorem policyPre_ne_nil (prev : Option (List Char)) (q : List Char)
    (qs suffix : List (List Char)) : policyPre prev (q :: qs) suffix ≠ [] := by
  simp only [policyPre]
  intro h
  exact policyEmit_ne_nil _ _ _ (List.append_eq_nil.mp h).1

theorem policyPre_getLast? : ∀ (pre : List (List Char)) (prev : Option (List Char))
    (suffix : List (List Char)), (policyPre prev pre suffix).getLast? = pre.getLast?
  | [], _, _ => rfl
  | [q], prev, suffix => by
    simp [policyPre, List.getLast?_append, policyEmit_getLast?]
  | q :: q' :: qs, prev, suffix => by
    have ih := policyPre_getLast? (q' :: qs) (some q) suffix
    show (policyEmit prev q _ ++ policyPre (some q) (q' :: qs) suffix).getLast? = _
    rw [List.getLast?_append_of_ne_nil _ (policyPre_ne_nil _ _ _ _), ih, List.getLast?_cons_cons]

theorem policyName_subset {line p : List Char} (h : policyName line = some p) : p ⊆ line := by
  have hline : line.dropWhile isSpaceChar ⊆ line := (List.dropWhile_sublist _).subset
  simp only [policyName] at h
  split at h
  · split at h
    · exact absurd h (by simp)
    · rename_i c r heq
      split at h
      · split at h
        · rename_i rest heq2
          split at h
          · exact absurd h (by simp)
          · split at h
            · exact absurd h (by simp)
            · have hp : p = rest.takeWhile notQuote := (Option.some.inj h).symm
              subst hp
              have h1 : rest.takeWhile notQuote ⊆ rest := (List.takeWhile_sublist _).subset
              have h2 : rest ⊆ '"' :: rest := fun x hx => List.mem_cons_of_mem _ hx
              have h3 : ('"' :: rest : List Char) ⊆ c :: r := by
                rw [← heq2]
                exact (List.dropWhile_sublist _).subset
              have h4 : (c :: r : List Char) ⊆ line.dropWhile isSpaceChar := by
                rw [← heq]
                exact List.drop_subset _ _
              exact h1.trans (h2.trans (h3.trans (h4.trans hline)))
        · exact absurd h (by simp)
      · exact absurd h (by simp)
  · exact absurd h (by simp)

theorem findOnTable_subset : ∀ {l t : List Char}, findOnTable l = some t → t ⊆ l := by
  intro l
  induction l with
  | nil => intro t h; simp [findOnTable] at h
  | cons c cs ih =>
    intro t h
    have hcs : ∀ {t : List Char}, findOnTable cs = some t → t ⊆ c :: cs :=
      fun ht => (ih ht).trans (fun x hx => List.mem_cons_of_mem _ hx)
    simp only [findOnTable] at h
    split at h
    · split at h
      · rename_i rest
        split at h
        · exact hcs h
        · split at h
          · exact hcs h
          · have hp : t = (rest.dropWhile isSpaceChar).takeWhile isTableChar :=
              (Option.some.inj h).symm
            subst hp
            have h1 : (rest.dropWhile isSpaceChar).takeWhile isTableChar ⊆ rest :=
              ((List.takeWhile_sublist _).subset).trans ((List.dropWhile_sublist _).subset)
            intro x hx
            exact List.mem_cons_of_mem _ (List.mem_cons_of_mem _ (h1 hx))
      · exact hcs h
    · exact hcs h

theorem windowTable_some {window : List (List Char)} {t : List Char}
    (h : windowTable window = some t) : ∃ l ∈ window, t ⊆ l := by
  rcases List.exists_of_findSome?_eq_some h with ⟨l, hl, hf⟩
  exact ⟨l, hl, findOnTable_subset hf⟩

theorem triggerName_subset {line p : List Char} (h : triggerName line = some p) : p ⊆ line := by
  have hline : line.dropWhile isSpaceChar ⊆ line := (List.dropWhile_sublist _).subset
  simp only [triggerName] at h
  split at h
  · split at h
    · exact absurd h (by simp)
    · rename_i c r heq
      split at h
      · split at h
        · exact absurd h (by simp)
        · have hp : p = ((c :: r).dropWhile isSpaceChar).takeWhile isWordChar :=
            (Option.some.inj h).symm
          subst hp
          have h1 : ((c :: r).dropWhile isSpaceChar).takeWhile isWordChar ⊆ c :: r :=
            ((List.takeWhile_sublist _).subset).trans ((List.dropWhile_sublist _).subset)
          have h4 : (c :: r : List Char) ⊆ line.dropWhile isSpaceChar := by
            rw [← heq]
            exact List.drop_subset _ _
          exact h1.trans (h4.trans hline)
      · exact absurd h (by simp)
  · exact absurd h (by simp)

theorem mem_policyEmit {prev : Option (List Char)} {line l' : List Char}
    {window : List (List Char)} (h : l' ∈ policyEmit prev line window) :
    l' = line ∨ ∃ p t, policyName line = some p ∧ windowTable window = some t
      ∧ l' = policyGuard p t := by
  rcases policyEmit_cases prev line window with hc | ⟨p, t, hn, ht, _, hc⟩
  · rw [hc] at h
    simp at h
    exact Or.inl h
  · rw [hc] at h
    rcases List.mem_cons.mp h with h1 | h1
    · exact Or.inr ⟨p, t, hn, ht, h1⟩
    · simp at h1
      exact Or.inl h1

theorem mem_policyStep : ∀ (ls : List (List Char)) (prev : Option (List Char))
    (l' : List Char), l' ∈ policyStep prev ls →
    l' ∈ ls ∨ ∃ p t, l' = policyGuard p t
      ∧ (∃ lp ∈ ls, p ⊆ lp) ∧ (∃ lt ∈ ls, t ⊆ lt)
  | [], _, l', h => by simp [policyStep] at h
  | line :: rest, prev, l', h => by
    rw [policyStep] at h
    rcases List.mem_append.mp h with h1 | h1
    · rcases mem_policyEmit h1 with h2 | ⟨p, t, hn, ht, h2⟩
      · exact Or.inl (h2 ▸ List.mem_cons_self _ _)
      · refine Or.inr ⟨p, t, h2, ⟨line, List.mem_cons_self _ _, policyName_subset hn⟩, ?_⟩
        rcases windowTable_some ht with ⟨lw, hlw, htw⟩
        exact ⟨lw, List.take_subset 5 _ hlw, htw⟩
    · rcases mem_policyStep rest (some line) l' h1 with h2 | h3
      · exact Or.inl (List.mem_cons_of_mem _ h2)
      · obtain ⟨p, t, e, ⟨lp, hlp, hp⟩, ⟨lt, hlt, htt⟩⟩ := h3
        exact Or.inr ⟨p, t, e, ⟨lp, List.mem_cons_of_mem _ hlp, hp⟩,
          ⟨lt, List.mem_cons_of_mem _ hlt, htt⟩⟩

theorem noNewline_policyGuard {p t : List Char} (hp : '\n' ∉ p) (ht : '\n' ∉ t) :
    '\n' ∉ policyGuard p t := by
  unfold policyGuard
  intro h
  simp only [List.mem_append] at h
  rcases h with (((h | h) | h) | h) | h
  · exact absurd h (by decide)
  · exact hp h
  · exact absurd h (by decide)
  · exact ht h
  · exact absurd h (by decide)

theorem noNewline_policyStep {ls : List (List Char)} (prev : Option (List Char))
    (hls : ∀ l ∈ ls, '\n' ∉ l) : ∀ l' ∈ policyStep prev ls, '\n' ∉ l' := by
  intro l' h
  rcases mem_policyStep ls prev l' h with h1 | ⟨p, t, e, ⟨lp, hlp, hp⟩, ⟨lt, hlt, ht⟩⟩
  · exact hls l' h1
  · subst e
    exact noNewline_policyGuard (fun hm => hls lp hlp (hp hm)) (fun hm => hls lt hlt (ht hm))

theorem sublist_policyStep : ∀ (ls : List (List Char)) (prev : Option (List Char)),
    ls.Sublist (policyStep prev ls)
  | [], _ => List.Sublist.refl []
  | line :: rest, prev => by
    rw [policyStep]
    rcases policyEmit_cases prev line ((line :: rest).take 5) with h | ⟨p, t, _, _, _, h⟩
    · rw [h]
      exact (sublist_policyStep rest (some line)).cons₂ line
    · rw [h]
      exact ((sublist_policyStep rest (some line)).cons₂ line).cons _

theorem policyStep_ne_nil {ls : List (List Char)} (prev : Option (List Char))
    (h : ls ≠ []) : policyStep prev ls ≠ [] := by
  intro hout
  have hsub := sublist_policyStep ls prev
  rw [hout] at hsub
  exact h (List.sublist_nil.mp hsub)

theorem splitLines_fix_create_policy (c : List Char) :
    splitLines (fix_create_policy c) = policyStep none (splitLines c) := by
  unfold fix_create_policy
  exact splitLines_joinLines _ (policyStep_ne_nil none (splitLines_ne_nil c))
    (noNewline_policyStep none (noNewline_splitLines c))

/-! ### Helper lemmas: the trigger fixer -/

theorem triggerEmit_cases (prev : Option (List Char)) (line : List Char)
    (window : List (List Char)) :
    triggerEmit prev line window = [line]
      ∨ ∃ p t, triggerName line = some p ∧ windowTable window = some t
          ∧ hasDropTrigger prev p = false
          ∧ triggerEmit prev line window = [triggerGuard p t, line] := by
  unfold triggerEmit
  cases hn : triggerName line with
  | none => exact Or.inl rfl
  | some name =>
    cases ht : windowTable window with
    | none => exact Or.inl rfl
    | some tbl =>
      by_cases hd : hasDropTrigger prev name = true
      · simp [hd]
      · simp only [Bool.not_eq_true] at hd
        simp only [hd, if_false]
        exact Or.inr ⟨name, tbl, rfl, rfl, hd, rfl⟩

theorem mem_triggerEmit {prev : Option (List Char)} {line l' : List Char}
    {window : List (List Char)} (h : l' ∈ triggerEmit prev line window) :
    l' = line ∨ ∃ p t, triggerName line = some p ∧ windowTable window = some t
      ∧ l' = triggerGuard p t := by
  rcases triggerEmit_cases prev line window with hc | ⟨p, t, hn, ht, _, hc⟩
  · rw [hc] at h
    simp at h
    exact Or.inl h
  · rw [hc] at h
    rcases List.mem_cons.mp h with h1 | h1
    · exact Or.inr ⟨p, t, hn, ht, h1⟩
    · simp at h1
      exact Or.inl h1

theorem mem_triggerStep : ∀ (ls : List (List Char)) (prev : Option (List Char))
    (l' : List Char), l' ∈ triggerStep prev ls →
    l' ∈ ls ∨ ∃ p t, l' = triggerGuard p t
      ∧ (∃ lp ∈ ls, p ⊆ lp) ∧ (∃ lt ∈ ls, t ⊆ lt)
  | [], _, l', h => by simp [triggerStep] at h
  | line :: rest, prev, l', h => by
    rw [triggerStep] at h
    rcases List.mem_append.mp h with h1 | h1
    · rcases mem_triggerEmit h1 with h2 | ⟨p, t, hn, ht, h2⟩
      · exact Or.inl (h2 ▸ List.mem_cons_self _ _)
      · refine Or.inr ⟨p, t, h2, ⟨line, List.mem_cons_self _ _, triggerName_subset hn⟩, ?_⟩
        rcases windowTable_some ht with ⟨lw, hlw, htw⟩
        exact ⟨lw, List.take_subset 5 _ hlw, htw⟩
    · rcases mem_triggerStep rest (some line) l' h1 with h2 | h3
      · exact Or.inl (List.mem_cons_of_mem _ h2)
      · obtain ⟨p, t, e, ⟨lp, hlp, hp⟩, ⟨lt, hlt, htt⟩⟩ := h3
        exact Or.inr ⟨p, t, e, ⟨lp, List.mem_cons_of_mem _ hlp, hp⟩,
          ⟨lt, List.mem_cons_of_mem _ hlt, htt⟩⟩

theorem noNewline_triggerGuard {p t : List Char} (hp : '\n' ∉ p) (ht : '\n' ∉ t) :
    '\n' ∉ triggerGuard p t := by
  unfold triggerGuard
  intro h
  simp only [List.mem_append] at h
  rcases h with (((h | h) | h) | h) | h
  · exact absurd h (by decide)
  · exact hp h
  · exact absurd h (by decide)
  · exact ht h
  · exact absurd h (by decide)

theorem noNewline_triggerStep {ls : List (List Char)} (prev : Option (List Char))
    (hls : ∀ l ∈ ls, '\n' ∉ l) : ∀ l' ∈ triggerStep prev ls, '\n' ∉ l' := by
  intro l' h
  rcases mem_triggerStep ls prev l' h with h1 | ⟨p, t, e, ⟨lp, hlp, hp⟩, ⟨lt, hlt, htt⟩⟩
  · exact hls l' h1
  · subst e
    exact noNewline_triggerGuard (fun hm => hls lp hlp (hp hm)) (fun hm => hls lt hlt (htt hm))

theorem sublist_triggerStep : ∀ (ls : List (List Char)) (prev : Option (List Char)),
    ls.Sublist (triggerStep prev ls)
  | [], _ => List.Sublist.refl []
  | line :: rest, prev => by
    rw [triggerStep]
    rcases triggerEmit_cases prev line ((line :: rest).take 5) with h | ⟨p, t, _, _, _, h⟩
    · rw [h]
      exact (sublist_triggerStep rest (some line)).cons₂ line
    · rw [h]
      exact ((sublist_triggerStep rest (some line)).cons₂ line).cons _

theorem triggerStep_ne_nil {ls : List (List Char)} (prev : Option (List Char))
    (h : ls ≠ []) : triggerStep prev ls ≠ [] := by
  intro hout
  have hsub := sublist_triggerStep ls prev
  rw [hout] at hsub
  exact h (List.sublist_nil.mp hsub)

theorem splitLines_fix_create_trigger (c : List Char) :
    splitLines (fix_create_trigger c) = triggerStep none (splitLines c) := by
  unfold fix_create_trigger
  exact splitLines_joinLines _ (triggerStep_ne_nil none (splitLines_ne_nil c))
    (noNewline_triggerStep none (noNewline_splitLines c))

/-! ### Helper lemmas: guarded fixpoints of the policy fixer -/

theorem policyName_policyGuard (p t : List Char) : policyName (policyGuard p t) = none := rfl

theorem containsSub_of_isPrefixOf {needle hay : List Char} (h : needle.isPrefixOf hay = true) :
    containsSub needle hay = true := by
  cases hay with
  | nil =>
    cases needle with
    | nil => rfl
    | cons c cs => simp [List.isPrefixOf] at h
  | cons c cs => simp [containsSub, h]

theorem policyDropHead_isPrefixOf_guard (p t : List Char) :
    (policyDropHead p).isPrefixOf (policyGuard p t) = true := by
  have hsplit : ( "\" ON ".data : List Char) = "\"".data ++ " ON ".data := rfl
  have h : policyGuard p t = policyDropHead p ++ ( " ON ".data ++ t ++ ";".data) := by
    unfold policyGuard policyDropHead
    rw [hsplit]
    simp [List.append_assoc]
  rw [h]
  exact isPrefixOf_append_self _ _

theorem hasDropPolicy_guard (p t : List Char) :
    hasDropPolicy (some (policyGuard p t)) p = true := by
  show containsSub (policyDropHead p) (policyGuard p t) = true
  exact containsSub_of_isPrefixOf (policyDropHead_isPrefixOf_guard p t)

theorem policyStep_of_guarded : ∀ (qs : List (List Char)) (prev : Option (List Char)),
    policyGuardedB prev qs = true → policyStep prev qs = qs
  | [], _, _ => rfl
  | q :: b, prev, h => by
    simp only [policyGuardedB, Bool.and_eq_true] at h
    have hrest := policyStep_of_guarded b (some q) h.2
    rw [policyStep, hrest]
    have hemit : policyEmit prev q ((q :: b).take 5) = [q] := by
      cases hn : policyName q with
      | none => simp [policyEmit, hn]
      | some p =>
        have h1 := h.1
        rw [hn] at h1
        cases ht : windowTable ((q :: b).take 5) with
        | none => exact policyEmit_noTable prev _ ht
        | some tbl =>
          rw [ht] at h1
          simp at h1
          exact policyEmit_skip prev _ hn h1
    rw [hemit]
    rfl

theorem policyStep_guarded_of_allFound : ∀ (ls : List (List Char)) (prev : Option (List Char)),
    allFoundB ls = true → policyGuardedB prev (policyStep prev ls) = true
  | [], _, _ => rfl
  | line :: rest, prev, h => by
    simp only [allFoundB, Bool.and_eq_true] at h
    have ih := policyStep_guarded_of_allFound rest (some line) h.2
    rw [policyStep]
    rcases policyEmit_cases prev line ((line :: rest).take 5) with hc | ⟨p, t, hn, ht, hd, hc⟩
    · rw [hc]
      show policyGuardedB prev (line :: policyStep (some line) rest) = true
      simp only [policyGuardedB, Bool.and_eq_true]
      refine ⟨?_, ih⟩
      cases hn : policyName line with
      | none => simp
      | some p =>
        have h1 := h.1
        rw [hn] at h1
        cases ht : windowTable ((line :: rest).take 5) with
        | none =>
          rw [ht] at h1
          simp at h1
        | some tbl =>
          by_cases hd : hasDropPolicy prev p = true
          · simp [hd]
          · simp only [Bool.not_eq_true] at hd
            rw [policyEmit_insert prev _ hn ht hd] at hc
            simp at hc
    · rw [hc]
      show policyGuardedB prev
        (policyGuard p t :: line :: policyStep (some line) rest) = true
      simp only [policyGuardedB, Bool.and_eq_true]
      refine ⟨?_, ?_, ih⟩
      · simp [policyName_policyGuard]
      · rw [hn]
        simp [hasDropPolicy_guard]

/-! ### Helper lemmas: the generic guard-inserting scan -/

theorem policyDropHead_eq_generic (n : List Char) :
    policyDropHead n = policyParams.dropHead n := by
  simp only [policyDropHead, GuardParams.dropHead, policyParams, List.append_assoc]
  rfl

theorem policyGuard_eq_generic (n t : List Char) :
    policyGuard n t = policyParams.guard n t := by
  show policyGuard n t = policyParams.dropHead n ++ " ON ".data ++ t ++ ";".data
  rw [← policyDropHead_eq_generic]
  unfold policyGuard policyDropHead
  simp only [List.append_assoc]
  rfl

theorem triggerDropHead_eq_generic (n : List Char) :
    triggerDropHead n = triggerParams.dropHead n := by
  simp only [triggerDropHead, GuardParams.dropHead, triggerParams, List.append_assoc]
  rfl

theorem triggerGuard_eq_generic (n t : List Char) :
    triggerGuard n t = triggerParams.guard n t := by
  show triggerGuard n t = triggerParams.dropHead n ++ " ON ".data ++ t ++ ";".data
  rw [← triggerDropHead_eq_generic]
  unfold triggerGuard triggerDropHead
  simp only [List.append_assoc]

theorem policyEmit_eq_generic (prev : Option (List Char)) (line : List Char)
    (window : List (List Char)) :
    policyEmit prev line window = genericEmit policyParams prev line window := by
  unfold policyEmit genericEmit
  have hname : policyParams.nameOf = policyName := rfl
  rw [hname]
  cases hn : policyName line with
  | none => rfl
  | some name =>
    cases ht : windowTable window with
    | none => rfl
    | some tbl =>
      cases prev with
      | none => simp [hasDropPolicy, policyGuard_eq_generic]
      | some pl => simp [hasDropPolicy, policyDropHead_eq_generic, policyGuard_eq_generic]

theorem triggerEmit_eq_generic (prev : Option (List Char)) (line : List Char)
    (window : List (List Char)) :
    triggerEmit prev line window = genericEmit triggerParams prev line window := by
  unfold triggerEmit genericEmit
  have hname : triggerParams.nameOf = triggerName := rfl
  rw [hname]
  cases hn : triggerName line with
  | none => rfl
  | some name =>
    cases ht : windowTable window with
    | none => rfl
    | some tbl =>
      cases prev with
      | none => simp [hasDropTrigger, triggerGuard_eq_generic]
      | some pl => simp [hasDropTrigger, triggerDropHead_eq_generic, triggerGuard_eq_generic]

theorem policyStep_eq_generic : ∀ (ls : List (List Char)) (prev : Option (List Char)),
    policyStep prev ls = genericStep policyParams prev ls
  | [], _ => rfl
  | line :: rest, prev => by
    rw [policyStep, genericStep, policyEmit_eq_generic,
      policyStep_eq_generic rest (some line)]

theorem triggerStep_eq_generic : ∀ (ls : List (List Char)) (prev : Option (List Char)),
    triggerStep prev ls = genericStep triggerParams prev ls
  | [], _ => rfl
  | line :: rest, prev => by
    rw [triggerStep, genericStep, triggerEmit_eq_generic,
      triggerStep_eq_generic rest (some line)]

/-! ### Helper lemmas: the driver -/

theorem lookupFile_writeFile_self : ∀ (fs : FileSystem) (n c : List Char),
    lookupFile (writeFile fs n c) n = some c
  | [], n, c => by simp [writeFile, lookupFile]
  | (n', c') :: fs, n, c => by
    by_cases h : n' = n
    · simp [writeFile, h, lookupFile]
    · simp [writeFile, h, lookupFile, lookupFile_writeFile_self fs n c]

theorem lookupFile_writeFile_other : ∀ (fs : FileSystem) (n c m : List Char), m ≠ n →
    lookupFile (writeFile fs n c) m = lookupFile fs m
  | [], n, c, m, h => by
    have h' : ¬ (n = m) := fun hh => h hh.symm
    simp [writeFile, lookupFile, h']
  | (n', c') :: fs, n, c, m, h => by
    by_cases h1 : n' = n
    · subst h1
      have h' : ¬ (n' = m) := fun hh => h hh.symm
      simp [writeFile, lookupFile, h']
    · by_cases h2 : n' = m
      · simp [writeFile, h1, lookupFile, h2, h]
      · simp [writeFile, h1, lookupFile, h2, lookupFile_writeFile_other fs n c m h]

theorem runMain_skip {fs : FileSystem} {n : List Char} (rest : List (List Char))
    (h : lookupFile fs n = none) : runMain fs (n :: rest) = runMain fs rest := by
  simp [runMain, h]

theorem runMain_count : ∀ (names : List (List Char)) (fs : FileSystem),
    (runMain fs names).2.2 = (runMain fs names).2.1.length
  | [], fs => rfl
  | n :: rest, fs => by
    cases hl : lookupFile fs n with
    | none => simp [runMain, hl, runMain_count rest fs]
    | some content =>
      by_cases hw : (fix_migration_file content).2 = true
      · simp [runMain, hl, hw, runMain_count rest _, Nat.add_comm]
      · simp only [Bool.not_eq_true] at hw
        simp [runMain, hl, hw, runMain_count rest _]

theorem dropPolicyText_isPrefixOf_guard (p t : List Char) :
    ( "DROP POLICY IF EXISTS ".data).isPrefixOf (policyGuard p t) = true := by
  have hsplit : ( "DROP POLICY IF EXISTS \"".data : List Char)
      = "DROP POLICY IF EXISTS ".data ++ "\"".data := rfl
  have h : policyGuard p t
      = "DROP POLICY IF EXISTS ".data
          ++ ( "\"".data ++ (p ++ ( "\" ON ".data ++ (t ++ ";".data)))) := by
    unfold policyGuard
    rw [hsplit]
    simp only [List.append_assoc]
  rw [h]
  exact isPrefixOf_append_self _ _

theorem dropTriggerText_isPrefixOf_guard (p t : List Char) :
    ( "DROP TRIGGER IF EXISTS ".data).isPrefixOf (triggerGuard p t) = true := by
  have h : triggerGuard p t
      = "DROP TRIGGER IF EXISTS ".data ++ (p ++ ( " ON ".data ++ (t ++ ";".data))) := by
    unfold triggerGuard
    simp only [List.append_assoc]
  rw [h]
  exact isPrefixOf_append_self _ _

/-! ### Claims -/

/-- C1, counterexample: the claim fails as stated.  Here the line
`CREATE POLICY "p"` finds table `tbl1` in its window, but the output does not
contain `DROP POLICY IF EXISTS "p" ON tbl1;` immediately before it (or at
all): the preceding line contains the text `DROP POLICY IF EXISTS "p"` with a
different table, so `fix_create_policy` inserts nothing. -/
theorem claim_C1_counterexample :
    policyName ( "CREATE POLICY \"p\" ON tbl1 USING (true);".data) = some ( "p".data)
    ∧ windowTable [( "CREATE POLICY \"p\" ON tbl1 USING (true);".data)] = some ( "tbl1".data)
    ∧ fix_create_policy exPolicyWrongTable = exPolicyWrongTable
    ∧ ( "DROP POLICY IF EXISTS \"p\" ON tbl1;".data)
        ∉ splitLines (fix_create_policy exPolicyWrongTable) :=
  ⟨by decide, by decide, by decide, by decide⟩

/-- C1 (amended): for every line matching `CREATE POLICY "p"` whose five-line
window yields table `t`, if the preceding original line does not contain the
substring `DROP POLICY IF EXISTS "p"` (in particular at the first line), then
the output consists of the processed preceding lines, then the guard
`DROP POLICY IF EXISTS "p" ON t;` immediately before the unchanged
`CREATE POLICY` line, exactly once — the preceding output does not end in a
second copy of that guard — and then the processed remaining lines. -/
theorem claim_C1_guard_inserted (pre : List (List Char)) (line : List Char)
    (rest : List (List Char)) (p t : List Char)
    (hn : policyName line = some p)
    (ht : windowTable ((line :: rest).take 5) = some t)
    (hd : hasDropPolicy (prevFor none pre) p = false) :
    policyStep none (pre ++ line :: rest)
      = policyPre none pre (line :: rest)
        ++ (policyGuard p t :: line :: policyStep (some line) rest)
    ∧ (policyPre none pre (line :: rest)).getLast? ≠ some (policyGuard p t) := by
  constructor
  · rw [policyStep_append line rest pre none, policyEmit_insert _ _ hn ht hd]
    rfl
  · rw [policyPre_getLast?]
    intro hcontra
    cases hl : pre.getLast? with
    | none =>
      rw [hl] at hcontra
      cases hcontra
    | some pl =>
      rw [hl] at hcontra
      have hpl : pl = policyGuard p t := Option.some.inj hcontra
      have hdp : hasDropPolicy (prevFor none pre) p = true := by
        show hasDropPolicy (match pre.getLast? with
          | some l => some l
          | none => none) p = true
        rw [hl, hpl]
        exact hasDropPolicy_guard p t
      rw [hdp] at hd
      cases hd

/-- C1, witness: on a single well-formed `CREATE POLICY` line the guard for
its table is inserted immediately before it. -/
theorem claim_C1_guard_inserted_witness :
    (policyName exC1line = some ( "x".data)
      ∧ windowTable ((exC1line :: ([] : List (List Char))).take 5) = some ( "tb".data)
      ∧ hasDropPolicy (prevFor none []) ( "x".data) = false)
    ∧ (policyStep none ([] ++ exC1line :: [])
        = policyPre none [] (exC1line :: [])
          ++ (policyGuard ( "x".data) ( "tb".data) :: exC1line :: policyStep (some exC1line) [])
      ∧ (policyPre none [] (exC1line :: [])).getLast?
          ≠ some (policyGuard ( "x".data) ( "tb".data))) :=
  ⟨⟨by decide, by decide, by decide⟩,
    claim_C1_guard_inserted [] exC1line [] ( "x".data) ( "tb".data)
      (by decide) (by decide) (by decide)⟩

/-- C2, counterexample: the claim fails as stated.  The fixer skips insertion
here — the output equals the input — although the immediately preceding line
is not equal to `DROP POLICY IF EXISTS "q" ON real_table;`: the skip test is
a substring test of `DROP POLICY IF EXISTS "q"` that ignores the table. -/
theorem claim_C2_counterexample :
    policyName ( "CREATE POLICY \"q\" ON real_table FOR ALL;".data) = some ( "q".data)
    ∧ windowTable [( "CREATE POLICY \"q\" ON real_table FOR ALL;".data)]
        = some ( "real_table".data)
    ∧ ( "DROP POLICY IF EXISTS \"q\" ON other;".data)
        ≠ policyGuard ( "q".data) ( "real_table".data)
    ∧ fix_create_policy exPolicyOtherTable = exPolicyOtherTable :=
  ⟨by decide, by decide, by decide, by decide⟩

/-- C2 (amended): for a matched `CREATE POLICY "p"` line with a table in its
window, the guard insertion is skipped if and only if the immediately
preceding original line contains the substring `DROP POLICY IF EXISTS "p"` —
the table name is not compared.  In particular an exact pre-existing guard
line suppresses a second guard (the witness instantiates this case). -/
theorem claim_C2_skip_iff (pre : List (List Char)) (line : List Char)
    (rest : List (List Char)) (p t : List Char)
    (hn : policyName line = some p)
    (ht : windowTable ((line :: rest).take 5) = some t) :
    (policyStep none (pre ++ line :: rest)
        = policyPre none pre (line :: rest) ++ (line :: policyStep (some line) rest))
    ↔ hasDropPolicy (prevFor none pre) p = true := by
  constructor
  · intro heq
    by_contra hd
    simp only [Bool.not_eq_true] at hd
    rw [policyStep_append line rest pre none, policyEmit_insert _ _ hn ht hd] at heq
    have hcancel := List.append_cancel_left heq
    have hlen := congrArg List.length hcancel
    simp at hlen
  · intro hd
    rw [policyStep_append line rest pre none, policyEmit_skip _ _ hn hd]
    rfl

/-- C2, witness: an exact guard line immediately before the `CREATE POLICY`
line makes the skip condition true, and the line then passes through with no
second guard inserted. -/
theorem claim_C2_skip_iff_witness :
    (policyName exC2line = some ( "w".data)
      ∧ windowTable ((exC2line :: ([] : List (List Char))).take 5) = some ( "t1".data))
    ∧ ((policyStep none ([policyGuard ( "w".data) ( "t1".data)] ++ exC2line :: [])
        = policyPre none [policyGuard ( "w".data) ( "t1".data)] (exC2line :: [])
          ++ (exC2line :: policyStep (some exC2line) []))
      ↔ hasDropPolicy (prevFor none [policyGuard ( "w".data) ( "t1".data)]) ( "w".data) = true) :=
  ⟨⟨by decide, by decide⟩,
    claim_C2_skip_iff [policyGuard ( "w".data) ( "t1".data)] exC2line [] ( "w".data) ( "t1".data)
      (by decide) (by decide)⟩

/-- C3: every occurrence of `CREATE INDEX ` followed by an identifier (a
non-empty word-character run not opening with `IF NOT EXISTS`) is rewritten
to `CREATE INDEX IF NOT EXISTS <identifier>`; the text before the occurrence
is preserved verbatim and the scan continues behind it.  The spec's example
line is rewritten accordingly. -/
theorem claim_C3_index_rewrite (t w u : List Char)
    (hw : w ≠ [] ∧ ∀ x ∈ w, isWordChar x = true)
    (hu : u.takeWhile isWordChar = [])
    (hine : ifNotExistsPat.isPrefixOf (w ++ u) = false)
    (hnm : noMatchBefore (t ++ (createIndexPat ++ w ++ u)) t.length) :
    fix_create_index (t ++ (createIndexPat ++ w ++ u))
      = t ++ (createIndexRepl ++ w ++ fix_create_index u)
    ∧ fix_create_index exIndexLine
      = ( "CREATE INDEX IF NOT EXISTS idx_users_email ON users(email);".data) := by
  refine ⟨?_, by decide⟩
  have hta : createIndexPat ++ w ++ u = createIndexPat ++ (w ++ u) := by
    rw [List.append_assoc]
  have htw : (w ++ u).takeWhile isWordChar = w := by
    rw [takeWhile_append_of_all hw.2 u, hu, List.append_nil]
  have hm : matchAt (createIndexPat ++ (w ++ u)) = true := by
    unfold matchAt
    rw [isPrefixOf_append_self, List.drop_left, htw]
    simp [hine, List.isEmpty_iff, hw.1]
  rw [fix_append_of_noMatch t _ hnm]
  congr 1
  rw [hta, fix_match hm, List.drop_left, htw,
    dropWhile_append_of_all hw.2 u, dropWhile_eq_self_of_takeWhile_nil hu]

/-- C3, witness: the general statement applied to the spec's example line. -/
theorem claim_C3_index_rewrite_witness :
    (( "idx_users_email".data ≠ ([] : List Char)
        ∧ ∀ x ∈ ( "idx_users_email".data), isWordChar x = true)
      ∧ ( " ON users(email);".data).takeWhile isWordChar = []
      ∧ ifNotExistsPat.isPrefixOf ( "idx_users_email".data ++ " ON users(email);".data) = false
      ∧ noMatchBefore (([] : List Char) ++ (createIndexPat ++ "idx_users_email".data ++ " ON users(email);".data))
          (List.length ([] : List Char)))
    ∧ (fix_create_index (([] : List Char) ++ (createIndexPat ++ "idx_users_email".data ++ " ON users(email);".data))
        = ([] : List Char) ++ (createIndexRepl ++ "idx_users_email".data
            ++ fix_create_index ( " ON users(email);".data))
      ∧ fix_create_index exIndexLine
        = ( "CREATE INDEX IF NOT EXISTS idx_users_email ON users(email);".data)) :=
  ⟨⟨⟨by decide, by decide⟩, by decide, by decide,
      fun i hi => absurd hi (Nat.not_lt_zero i)⟩,
    claim_C3_index_rewrite [] ( "idx_users_email".data) ( " ON users(email);".data)
      ⟨by decide, by decide⟩ (by decide) (by decide)
      (fun i hi => absurd hi (Nat.not_lt_zero i))⟩

/-- C4, counterexample: the index fixer is not idempotent.  On overlapping
occurrences the substitution captures the second `CREATE INDEX` as the
identifier of the first, and a second application rewrites the remainder. -/
theorem claim_C4_counterexample :
    fix_create_index (fix_create_index exIndexOverlap) ≠ fix_create_index exIndexOverlap := by
  decide

/-- C4 (amended): statements already carrying `IF NOT EXISTS` are never
rewritten again — the fixer is the identity on fully guarded content — so a
second application changes nothing whenever the first application's output is
fully guarded (every `CREATE INDEX ` occurrence followed by
`IF NOT EXISTS`); full idempotence fails on overlapping occurrences. -/
theorem claim_C4_idem_of_guarded (c : List Char)
    (h : guardedB (fix_create_index c) = true) :
    fix_create_index (fix_create_index c) = fix_create_index c :=
  fix_of_guarded h

/-- C4, witness: on the spec's example line the first output is fully guarded
and the second application changes nothing. -/
theorem claim_C4_idem_of_guarded_witness :
    guardedB (fix_create_index exIndexLine) = true
    ∧ fix_create_index (fix_create_index exIndexLine) = fix_create_index exIndexLine :=
  ⟨by decide, claim_C4_idem_of_guarded exIndexLine (by decide)⟩

/-- C5: if no line of the five-line window of a matched `CREATE POLICY` line
yields an `ON <table>` occurrence, no guard is inserted for it: the output is
the processed preceding lines, then the unchanged `CREATE POLICY` line
directly, then the processed remaining lines; the absence of a table is not
an error (`policyStep` is total). -/
theorem claim_C5_no_table_no_guard (pre : List (List Char)) (line : List Char)
    (rest : List (List Char)) (p : List Char)
    (_hn : policyName line = some p)
    (ht : ∀ l ∈ (line :: rest).take 5, findOnTable l = none) :
    policyStep none (pre ++ line :: rest)
      = policyPre none pre (line :: rest) ++ (line :: policyStep (some line) rest) := by
  have hw : windowTable ((line :: rest).take 5) = none :=
    List.findSome?_eq_none_iff.mpr ht
  rw [policyStep_append line rest pre none, policyEmit_noTable _ _ hw]
  rfl

/-- C5, witness: a `CREATE POLICY` line with no `ON` clause in its window
passes through unchanged. -/
theorem claim_C5_no_table_no_guard_witness :
    (policyName exC5line = some ( "z".data)
      ∧ ∀ l ∈ (exC5line :: [exC5next]).take 5, findOnTable l = none)
    ∧ policyStep none ([] ++ exC5line :: [exC5next])
        = policyPre none [] (exC5line :: [exC5next])
          ++ (exC5line :: policyStep (some exC5line) [exC5next]) :=
  ⟨⟨by decide, by decide⟩,
    claim_C5_no_table_no_guard [] exC5line [exC5next] ( "z".data) (by decide) (by decide)⟩

/-- C6: for every input, the lines of the input form a sublist (in order) of
the lines of the policy fixer's output, and every output line is either an
input line or an inserted `DROP POLICY IF EXISTS` guard line; likewise for
the trigger fixer with `DROP TRIGGER IF EXISTS` guard lines.  No original
line is altered, deleted or reordered. -/
theorem claim_C6_lines_preserved (c : List Char) :
    (splitLines c).Sublist (splitLines (fix_create_policy c))
    ∧ (∀ l ∈ splitLines (fix_create_policy c),
        l ∈ splitLines c ∨ ( "DROP POLICY IF EXISTS ".data).isPrefixOf l = true)
    ∧ (splitLines c).Sublist (splitLines (fix_create_trigger c))
    ∧ (∀ l ∈ splitLines (fix_create_trigger c),
        l ∈ splitLines c ∨ ( "DROP TRIGGER IF EXISTS ".data).isPrefixOf l = true) := by
  rw [splitLines_fix_create_policy, splitLines_fix_create_trigger]
  refine ⟨sublist_policyStep _ _, ?_, sublist_triggerStep _ _, ?_⟩
  · intro l hl
    rcases mem_policyStep _ _ _ hl with h | ⟨p, t, e, _, _⟩
    · exact Or.inl h
    · subst e
      exact Or.inr (dropPolicyText_isPrefixOf_guard p t)
  · intro l hl
    rcases mem_triggerStep _ _ _ hl with h | ⟨p, t, e, _, _⟩
    · exact Or.inl h
    · subst e
      exact Or.inr (dropTriggerText_isPrefixOf_guard p t)

/-- C7: the policy fixer and the trigger fixer are the same generic
line-scanning procedure — five-line `ON`-table lookahead, preceding-line
duplicate check, guard insertion — instantiated at different parameters:
the matched pattern (`policyName` with a quoted name vs `triggerName` with a
bare identifier) and the guard text (keyword `POLICY` with the name rendered
in double quotes vs keyword `TRIGGER` with the name rendered bare). -/
theorem claim_C7_same_generic_procedure (prev : Option (List Char)) (ls : List (List Char)) :
    policyStep prev ls = genericStep policyParams prev ls
    ∧ triggerStep prev ls = genericStep triggerParams prev ls
    ∧ (∀ c, fix_create_policy c = joinLines (genericStep policyParams none (splitLines c)))
    ∧ (∀ c, fix_create_trigger c = joinLines (genericStep triggerParams none (splitLines c))) :=
  ⟨policyStep_eq_generic ls prev, triggerStep_eq_generic ls prev,
    fun c => by rw [fix_create_policy, policyStep_eq_generic],
    fun c => by rw [fix_create_trigger, triggerStep_eq_generic]⟩

/-- C8: a processed file is written back exactly when the pipeline
index → policy → trigger changes its content.  If the content is unchanged,
the run is as if the file had been skipped (no write, no count, no entry in
the written list); if it changed, the file is recorded as written, its stored
content becomes the pipeline output, the count grows by one, and no other
file's content is touched. -/
theorem claim_C8_write_iff_changed (fs : FileSystem) (n content : List Char)
    (rest : List (List Char)) (h : lookupFile fs n = some content) :
    ((fix_migration_file content).2 = true ↔ applyAllFixes content ≠ content)
    ∧ (applyAllFixes content = content → runMain fs (n :: rest) = runMain fs rest)
    ∧ (applyAllFixes content ≠ content →
        runMain fs (n :: rest)
          = ((runMain (writeFile fs n (applyAllFixes content)) rest).1,
             n :: (runMain (writeFile fs n (applyAllFixes content)) rest).2.1,
             1 + (runMain (writeFile fs n (applyAllFixes content)) rest).2.2)
        ∧ lookupFile (writeFile fs n (applyAllFixes content)) n = some (applyAllFixes content)
        ∧ ∀ m, m ≠ n → lookupFile (writeFile fs n (applyAllFixes content)) m = lookupFile fs m) := by
  refine ⟨?_, ?_, ?_⟩
  · unfold fix_migration_file
    by_cases hc : applyAllFixes content = content
    · simp [hc]
    · simp [hc]
  · intro hc
    have hfix : fix_migration_file content = (content, false) := by
      unfold fix_migration_file
      simp [hc]
    show runMain fs (n :: rest) = runMain fs rest
    rw [runMain, h]
    dsimp only
    rw [hfix]
    simp
  · intro hc
    have hfix : fix_migration_file content = (applyAllFixes content, true) := by
      unfold fix_migration_file
      simp [hc]
    refine ⟨?_, lookupFile_writeFile_self fs n _,
      fun m hm => lookupFile_writeFile_other fs n _ m hm⟩
    show runMain fs (n :: rest) = _
    rw [runMain, h]
    dsimp only
    rw [hfix]
    simp

/-- C8, witness: a one-file directory whose file the pipeline changes. -/
theorem claim_C8_write_iff_changed_witness :
    lookupFile exFS ( "00003_brand_brain_schema.sql".data) = some exIndexLine
    ∧ (((fix_migration_file exIndexLine).2 = true ↔ applyAllFixes exIndexLine ≠ exIndexLine)
      ∧ (applyAllFixes exIndexLine = exIndexLine →
          runMain exFS ( "00003_brand_brain_schema.sql".data :: []) = runMain exFS [])
      ∧ (applyAllFixes exIndexLine ≠ exIndexLine →
          runMain exFS ( "00003_brand_brain_schema.sql".data :: [])
            = ((runMain (writeFile exFS ( "00003_brand_brain_schema.sql".data) (applyAllFixes exIndexLine)) []).1,
               ( "00003_brand_brain_schema.sql".data)
                 :: (runMain (writeFile exFS ( "00003_brand_brain_schema.sql".data) (applyAllFixes exIndexLine)) []).2.1,
               1 + (runMain (writeFile exFS ( "00003_brand_brain_schema.sql".data) (applyAllFixes exIndexLine)) []).2.2)
          ∧ lookupFile (writeFile exFS ( "00003_brand_brain_schema.sql".data) (applyAllFixes exIndexLine))
              ( "00003_brand_brain_schema.sql".data) = some (applyAllFixes exIndexLine)
          ∧ ∀ m, m ≠ ( "00003_brand_brain_schema.sql".data) →
              lookupFile (writeFile exFS ( "00003_brand_brain_schema.sql".data) (applyAllFixes exIndexLine)) m
                = lookupFile exFS m)) :=
  ⟨by decide,
    claim_C8_write_iff_changed exFS ( "00003_brand_brain_schema.sql".data) exIndexLine []
      (by decide)⟩

/-- C9: a listed migration file that is absent is skipped — the run on
`n :: rest` equals the run on `rest`, no exception is modelled since
`runMain` is total, and the absent file contributes nothing to the written
list or the count — and for every run the reported count equals the number
of files actually written. -/
theorem claim_C9_missing_skipped (fs : FileSystem) (n : List Char)
    (rest : List (List Char)) (h : lookupFile fs n = none) :
    runMain fs (n :: rest) = runMain fs rest
    ∧ ∀ (fs' : FileSystem) (names : List (List Char)),
        (runMain fs' names).2.2 = (runMain fs' names).2.1.length :=
  ⟨runMain_skip rest h, fun fs' names => runMain_count names fs'⟩

/-- C9, witness: a listed but absent migration file is skipped. -/
theorem claim_C9_missing_skipped_witness :
    lookupFile exFS ( "00004_rate_limiting.sql".data) = none
    ∧ (runMain exFS ( "00004_rate_limiting.sql".data :: []) = runMain exFS []
      ∧ ∀ (fs' : FileSystem) (names : List (List Char)),
          (runMain fs' names).2.2 = (runMain fs' names).2.1.length) :=
  ⟨by decide, claim_C9_missing_skipped exFS ( "00004_rate_limiting.sql".data) [] (by decide)⟩

/-- C10, counterexample: the policy fixer is not idempotent.  In this input
the line `CREATE POLICY "a"` has no `ON` in its five-line window, but the
guard inserted for `CREATE POLICY "b"` carries `ON t` into that window, so a
second application inserts a further guard. -/
theorem claim_C10_counterexample :
    fix_create_policy (fix_create_policy exPolicyLateOn) ≠ fix_create_policy exPolicyLateOn := by
  decide

/-- C10 (amended): the policy fixer is idempotent on every input in which
each `CREATE POLICY "<name>"` line finds a table in its five-line window —
then every such line in the first output is immediately preceded by a line
containing its `DROP POLICY IF EXISTS "<name>"` text, and a second
application inserts nothing.  Full idempotence fails when an inserted guard
brings an `ON <table>` token into the window of a previously guardless
`CREATE POLICY` line. -/
theorem claim_C10_idem_of_allFound (c : List Char)
    (h : allFoundB (splitLines c) = true) :
    fix_create_policy (fix_create_policy c) = fix_create_policy c := by
  show joinLines (policyStep none (splitLines (fix_create_policy c))) = fix_create_policy c
  rw [splitLines_fix_create_policy,
    policyStep_of_guarded _ none (policyStep_guarded_of_allFound _ none h)]
  rfl

/-- C10, witness: the spec's example policy statement finds its table on the
`CREATE POLICY` line itself, and a second application changes nothing. -/
theorem claim_C10_idem_of_allFound_witness :
    allFoundB (splitLines exPolicyGood) = true
    ∧ fix_create_policy (fix_create_policy exPolicyGood) = fix_create_policy exPolicyGood :=
  ⟨by decide, claim_C10_idem_of_allFound exPolicyGood (by decide)⟩
